import Mathlib

/-!
Shallow embedding of the tx-parser-svc core (Go) in Lean 4.

Modelled source files:
* `internal/txparser/parser.go` — `EthParser`, `processNextBlock`,
  `parseTransactions`, `storeTransactions`, `hexToInt64`, `hexToInt64OrZero`,
  `StartParsing`.
* the in-memory store file — `MemoryStore` with `Subscribe`, `IsSubscribed`,
  `AddTransaction`, `GetTransactions`, `GetCurrentBlock`, `SetCurrentBlock`.
* `internal/txparser/json_rpc_client.go` — the `JSONRPCClient` capability and
  the `BlockResponse` / `RawTx` / `Transaction` record shapes.

Go maps `map[string]bool` / `map[string][]Transaction` are modelled as a
membership list and an association list; Go slices are Lean lists; fallible
Go calls (`(T, error)`) are `Except`; the mutation of the shared store is
explicit state passing.  Machine integers (`int`, `int64`) are `Int`, with
the `strconv.ParseInt(_, 16, 64)` range check `[-2^63, 2^63-1]` made
explicit where the source performs it.
-/

set_option autoImplicit false

namespace TxParser

/-- Model of the `Transaction` record from the source (`types`): hash, from, to, value as
raw strings, block height as an integer (`int64` in Go). -/
structure Transaction where
  Hash : String
  From : String
  To : String
  Value : String
  Block : Int
deriving DecidableEq, Repr

/-- Model of `RawTx` from `json_rpc_client.go`: the wire shape of a transaction inside
a fetched block. -/
structure RawTx where
  Hash : String
  From : String
  To : String
  Value : String
deriving DecidableEq, Repr

/-- The `Result` payload of `BlockResponse`: self-reported block number (hex
string), block hash, and the raw transaction list. -/
structure BlockResult where
  Number : String
  Hash : String
  Transactions : List RawTx
deriving DecidableEq, Repr

/-- Model of `BlockResponse` from `json_rpc_client.go` (the JSON-RPC envelope fields
`jsonrpc`/`id` carry no behaviour and are omitted). -/
structure BlockResponse where
  Result : BlockResult
deriving DecidableEq, Repr

/-- The `JSONRPCClient` capability: `BlockNumber() (string, error)` and
`GetBlockByNumber(int64) (BlockResponse, error)`, with `error` as a message
string. -/
structure JSONRPCClient where
  BlockNumber : Except String String
  GetBlockByNumber : Int → Except String BlockResponse

/-! ### Hex parsing (`hexToInt64`, `hexToInt64OrZero` in parser.go)

`strconv.ParseInt(h, 16, 64)` with an explicit base accepts an optional
leading sign followed by one or more hex digits (both cases), no `"0x"`
prefix and no underscores, and fails on an empty digit string, an invalid
digit, or a value outside `[-2^63, 2^63-1]`.  The distinct Go error values
(syntax vs range) are collapsed to `Unit` since the source never inspects
them. -/

/-- Value of one hex digit, `none` for a non-digit (Go `strconv` digit
decoding for base 16: `0-9`, `a-f`, `A-F`). -/
def hexDigitVal (c : Char) : Option Nat :=
  if '0' ≤ c ∧ c ≤ '9' then some (c.toNat - '0'.toNat)
  else if 'a' ≤ c ∧ c ≤ 'f' then some (c.toNat - 'a'.toNat + 10)
  else if 'A' ≤ c ∧ c ≤ 'F' then some (c.toNat - 'A'.toNat + 10)
  else none

/-- True when `c` is a hex digit accepted by `strconv.ParseInt(_, 16, _)`. -/
def isHexDigitChar (c : Char) : Bool :=
  (hexDigitVal c).isSome

/-- Accumulating base-16 digit parse; `none` on the first invalid digit. -/
def hexDigitsAux (acc : Nat) : List Char → Option Nat
  | [] => some acc
  | c :: t =>
    match hexDigitVal c with
    | none => none
    | some d => hexDigitsAux (acc * 16 + d) t

/-- Parse a non-empty run of hex digits to its value; `none` if empty or any
character is not a hex digit. -/
def hexDigitsVal : List Char → Option Nat
  | [] => none
  | l => hexDigitsAux 0 l

/-- Model of `strconv.ParseInt(s, 16, 64)`: optional sign, hex digits, 64-bit signed
range check. -/
def parseIntHex64 (l : List Char) : Except Unit Int :=
  let signDigits : Bool × List Char :=
    match l with
    | '+' :: t => (false, t)
    | '-' :: t => (true, t)
    | t => (false, t)
  match hexDigitsVal signDigits.2 with
  | none => Except.error ()
  | some n =>
    if signDigits.1 then
      if n ≤ 2 ^ 63 then Except.ok (-(n : Int)) else Except.error ()
    else
      if n < 2 ^ 63 then Except.ok (n : Int) else Except.error ()

/-- The source test `len(h) > 2 && h[:2] == "0x"` strips the prefix (on the character list of
the string; the byte-level Go test agrees with the character-level one here
because `'0'` and `'x'` are single-byte). -/
def strip0x (h : List Char) : List Char :=
  if h.length > 2 ∧ h.take 2 = ['0', 'x'] then h.drop 2 else h

/-- Model of `hexToInt64` from parser.go: strip an optional `"0x"` prefix, then
`strconv.ParseInt(h, 16, 64)`. -/
def hexToInt64 (h : String) : Except Unit Int :=
  parseIntHex64 (strip0x h.data)

/-- Model of `hexToInt64OrZero` from parser.go: the value, or `0` when parsing fails
(Go's `hexToInt64` returns `0, err` on failure and the caller drops `err`). -/
def hexToInt64OrZero (h : String) : Int :=
  match hexToInt64 h with
  | Except.ok v => v
  | Except.error _ => 0

/-! ### The in-memory store (`MemoryStore`) -/

/-- Association-list lookup modelling `m.transactions[address]` with its
`ok` flag (`none` = key absent). -/
def lookupTxs : List (String × List Transaction) → String → Option (List Transaction)
  | [], _ => none
  | (k, v) :: t, a => if k = a then some v else lookupTxs t a

/-- Association-list update modelling `m.transactions[address] = v`
(overwrites an existing entry, appends a new one otherwise). -/
def setTxs : List (String × List Transaction) → String → List Transaction →
    List (String × List Transaction)
  | [], a, v => [(a, v)]
  | (k, w) :: t, a, v => if k = a then (a, v) :: t else (k, w) :: setTxs t a v

/-- Model of `MemoryStore`: cursor (`CurrentBlock`), subscription set
(`map[string]bool`, modelled by the list of keys mapped to `true`) and the
per-address transaction lists (`map[string][]Transaction`). -/
structure MemoryStore where
  CurrentBlock : Int
  subscribed : List String
  transactions : List (String × List Transaction)
deriving DecidableEq, Repr

/-- Model of `NewMemoryStore`: empty maps; Go zero value gives `CurrentBlock = 0`. -/
def NewMemoryStore : MemoryStore :=
  { CurrentBlock := 0, subscribed := [], transactions := [] }

/-- Model of `GetCurrentBlock`. -/
def MemoryStore.GetCurrentBlock (m : MemoryStore) : Int :=
  m.CurrentBlock

/-- Model of `SetCurrentBlock`. -/
def MemoryStore.SetCurrentBlock (m : MemoryStore) (block : Int) : MemoryStore :=
  { m with CurrentBlock := block }

/-- Model of `IsSubscribed`: `m.subscribed[address]` (absent key reads as `false`). -/
def MemoryStore.IsSubscribed (m : MemoryStore) (address : String) : Bool :=
  decide (address ∈ m.subscribed)

/-- Model of `Subscribe`: returns `false` if already subscribed, otherwise marks the
address watched, installs an empty transaction list for it, and returns
`true`.  The Go method mutates in place; here the new store is returned. -/
def MemoryStore.Subscribe (m : MemoryStore) (address : String) : Bool × MemoryStore :=
  if address ∈ m.subscribed then (false, m)
  else
    (true,
      { m with
        subscribed := address :: m.subscribed
        transactions := setTxs m.transactions address [] })

/-- Model of `AddTransaction`: appends `tx` to the address's list only when the
address is subscribed (`append` on an absent key starts from `nil`, modelled
by `getD []`). -/
def MemoryStore.AddTransaction (m : MemoryStore) (address : String) (tx : Transaction) :
    MemoryStore :=
  if address ∈ m.subscribed then
    { m with
      transactions :=
        setTxs m.transactions address ((lookupTxs m.transactions address).getD [] ++ [tx]) }
  else m

/-- Model of `copy(cp, txs)` into a fresh `make([]Transaction, len(txs))`: the
returned slice is rebuilt element by element. -/
def copySlice (txs : List Transaction) : List Transaction :=
  txs.foldr (fun x acc => x :: acc) []

/-- Model of `GetTransactions`: empty list when the address has no entry, otherwise a
copy of the stored list. -/
def MemoryStore.GetTransactions (m : MemoryStore) (address : String) : List Transaction :=
  match lookupTxs m.transactions address with
  | none => []
  | some txs => copySlice txs

/-! ### The parser (`EthParser`) -/

/-- Model of `parseTransactions` from parser.go: map each raw transaction to the
internal `Transaction`, taking `Block` from the block's self-reported
`Number` field (0 when it fails to parse). -/
def parseTransactions (block : BlockResponse) : List Transaction :=
  block.Result.Transactions.map fun tx =>
    { Hash := tx.Hash
      From := tx.From
      To := tx.To
      Value := tx.Value
      Block := hexToInt64OrZero block.Result.Number }

/-- Model of `storeTransactions` from parser.go: for each transaction, record it under
its from-address and (then) under its to-address when each is subscribed.
The two checks read the store state current at that point, as in the
sequential Go loop body. -/
def storeTransactions (m : MemoryStore) : List Transaction → MemoryStore
  | [] => m
  | tx :: rest =>
    let m1 := if m.IsSubscribed tx.From then m.AddTransaction tx.From tx else m
    let m2 := if m1.IsSubscribed tx.To then m1.AddTransaction tx.To tx else m1
    storeTransactions m2 rest

/-- Model of `processNextBlock` from parser.go, with the store passed and returned
explicitly.  The second component is the Go return value: `Except.ok ()` for
`nil`, `Except.error e` for a non-nil error; every early error return leaves
the store exactly as received, as the Go code performs no store mutation
before those returns. -/
def processNextBlock (client : JSONRPCClient) (m : MemoryStore) :
    MemoryStore × Except String Unit :=
  let currentBlock := m.GetCurrentBlock
  match client.BlockNumber with
  | Except.error e => (m, Except.error ("failed to get block number: " ++ e))
  | Except.ok latestBlockHex =>
    match hexToInt64 latestBlockHex with
    | Except.error _ => (m, Except.error "failed converting block hex to int64")
    | Except.ok latestBlockDecimal =>
      if currentBlock ≥ latestBlockDecimal then (m, Except.ok ())
      else
        let nextBlock := currentBlock + 1
        match client.GetBlockByNumber nextBlock with
        | Except.error e =>
          (m, Except.error ("failed to fetch block data: " ++ e))
        | Except.ok blockData =>
          let transactions := parseTransactions blockData
          let m1 := storeTransactions m transactions
          let m2 := m1.SetCurrentBlock nextBlock
          (m2, Except.ok ())

/-- The chain tip as `processNextBlock` computes it: `BlockNumber` then
`hexToInt64`; `none` when either step fails. -/
def chainTip (client : JSONRPCClient) : Option Int :=
  match client.BlockNumber with
  | Except.error _ => none
  | Except.ok s => (hexToInt64 s).toOption

/-- Model of the `EthParser` state relevant to the claims: the wrapped store and the
`parseRunning` flag guarding `StartParsing` (the logger and mutex carry no
sequential behaviour). -/
structure EthParser where
  store : MemoryStore
  parseRunning : Bool
deriving DecidableEq, Repr

/-- Model of `NewEthParser`: fresh parser over a store, loop not running. -/
def NewEthParser (store : MemoryStore) : EthParser :=
  { store := store, parseRunning := false }

/-- The `for`/`select` loop body of `StartParsing`: `signals` lists the
successive `ctx.Done()` observations at the top of each iteration; a `true`
stops the loop, otherwise `processNextBlock` runs (its error is only logged)
and the loop continues. -/
def runLoop (client : JSONRPCClient) : List Bool → MemoryStore → MemoryStore
  | [], st => st
  | done :: rest, st =>
    if done then st else runLoop client rest (processNextBlock client st).1

/-- Model of `StartParsing`: when `parseRunning` is already set the call logs a
warning and returns with nothing changed; otherwise it sets `parseRunning`
(which no code path ever resets) and runs the loop until cancelled. -/
def StartParsing (p : EthParser) (client : JSONRPCClient) (signals : List Bool) :
    EthParser :=
  if p.parseRunning then p
  else { parseRunning := true, store := runLoop client signals p.store }

/-- Model of `EthParser.Subscribe`: delegate to the store. -/
def EthParser.Subscribe (p : EthParser) (address : String) : Bool × EthParser :=
  let r := p.store.Subscribe address
  (r.1, { p with store := r.2 })

/-- Model of `EthParser.GetTransactions`: delegate to the store. -/
def EthParser.GetTransactions (p : EthParser) (address : String) : List Transaction :=
  p.store.GetTransactions address

/-- Model of `EthParser.GetCurrentBlock`: delegate to the store. -/
def EthParser.GetCurrentBlock (p : EthParser) : Int :=
  p.store.GetCurrentBlock

/-! ### Store-operation traces

The mutating store operations, as an inductive type of events, so that
"every sequence of store operations" can be quantified over. -/

/-- One mutating call on the store interface (the read-only calls
`IsSubscribed`, `GetTransactions`, `GetCurrentBlock` do not change state). -/
inductive StoreOp where
  | subscribe (address : String)
  | addTransaction (address : String) (tx : Transaction)
  | setCurrentBlock (block : Int)
deriving DecidableEq, Repr

/-- Run one store operation. -/
def applyOp (m : MemoryStore) : StoreOp → MemoryStore
  | StoreOp.subscribe a => (m.Subscribe a).2
  | StoreOp.addTransaction a tx => m.AddTransaction a tx
  | StoreOp.setCurrentBlock b => m.SetCurrentBlock b

/-- Run a sequence of store operations in order. -/
def applyOps (m : MemoryStore) : List StoreOp → MemoryStore
  | [] => m
  | op :: rest => applyOps (applyOp m op) rest

/-- Store invariant for the ingestion path: every transaction held under an
address involves that address as sender or recipient. -/
def txsWellFormed (m : MemoryStore) : Prop :=
  ∀ A txs, lookupTxs m.transactions A = some txs →
    ∀ tx ∈ txs, A = tx.From ∨ A = tx.To

/-! ### Concrete fixtures (from `parser_test.go`) -/

/-- Model of the `mockClient` fixture in `parser_test.go`: latest block
`"0x3"`, blocks 1–3 as in the test (a Go map read at a missing key yields
the zero-value `BlockResponse` with a nil error). -/
def mockClient : JSONRPCClient :=
  { BlockNumber := Except.ok "0x3"
    GetBlockByNumber := fun n =>
      if n = 1 then
        Except.ok
          { Result :=
            { Number := "0x1", Hash := "0xblock1"
              Transactions :=
                [ { Hash := "0xtx1", From := "0xABCDEF", To := "0x123", Value := "0x10" },
                  { Hash := "0xtx2", From := "0x555", To := "0x666", Value := "0x20" } ] } }
      else if n = 2 then
        Except.ok
          { Result :=
            { Number := "0x2", Hash := "0xblock2"
              Transactions :=
                [ { Hash := "0xtx3", From := "0x123", To := "0xABCDEF", Value := "0x15" } ] } }
      else if n = 3 then
        Except.ok
          { Result := { Number := "0x3", Hash := "0xblock3", Transactions := [] } }
      else
        Except.ok { Result := { Number := "", Hash := "", Transactions := [] } } }

/-- The store of `TestParser` after subscribing `"0x123"` on a fresh store
and calling `processNextBlock` three times against `mockClient`. -/
def scenarioStore : MemoryStore :=
  let m0 := (NewMemoryStore.Subscribe "0x123").2
  let m1 := (processNextBlock mockClient m0).1
  let m2 := (processNextBlock mockClient m1).1
  (processNextBlock mockClient m2).1

/-- A client whose `BlockNumber` call fails (for witnessing the error
paths). -/
def failingClient : JSONRPCClient :=
  { BlockNumber := Except.error "connection refused"
    GetBlockByNumber := fun _ => Except.error "connection refused" }

/-- A sample transaction whose sender and recipient are both `"0x123"`. -/
def selfTx : Transaction :=
  { Hash := "0xself", From := "0x123", To := "0x123", Value := "0x1", Block := 7 }

/-! ### Lemmas about the store primitives -/

theorem copySlice_eq (l : List Transaction) : copySlice l = l := by
  induction l with
  | nil => rfl
  | cons x t ih =>
    show x :: copySlice t = x :: t
    rw [ih]

theorem lookupTxs_setTxs_self (l : List (String × List Transaction)) (a : String)
    (v : List Transaction) : lookupTxs (setTxs l a v) a = some v := by
  induction l with
  | nil => simp [setTxs, lookupTxs]
  | cons kw t ih =>
    obtain ⟨k, w⟩ := kw
    by_cases h : k = a
    · simp [setTxs, lookupTxs, h]
    · simp [setTxs, lookupTxs, h, ih]

theorem lookupTxs_setTxs_ne (l : List (String × List Transaction)) {a b : String}
    (v : List Transaction) (h : b ≠ a) : lookupTxs (setTxs l a v) b = lookupTxs l b := by
  have h' : a ≠ b := Ne.symm h
  induction l with
  | nil => simp [setTxs, lookupTxs, h']
  | cons kw t ih =>
    obtain ⟨k, w⟩ := kw
    by_cases hk : k = a
    · subst hk
      simp [setTxs, lookupTxs, h']
    · simp [setTxs, lookupTxs, hk, ih]

theorem getTransactions_eq (m : MemoryStore) (a : String) :
    m.GetTransactions a = (lookupTxs m.transactions a).getD [] := by
  unfold MemoryStore.GetTransactions
  cases h : lookupTxs m.transactions a with
  | none => rfl
  | some l => simp [copySlice_eq]

theorem addTransaction_subscribed_set (m : MemoryStore) (a : String) (tx : Transaction) :
    (m.AddTransaction a tx).subscribed = m.subscribed := by
  unfold MemoryStore.AddTransaction
  split <;> rfl

theorem addTransaction_currentBlock (m : MemoryStore) (a : String) (tx : Transaction) :
    (m.AddTransaction a tx).CurrentBlock = m.CurrentBlock := by
  unfold MemoryStore.AddTransaction
  split <;> rfl

theorem isSubscribed_addTransaction (m : MemoryStore) (a b : String) (tx : Transaction) :
    (m.AddTransaction a tx).IsSubscribed b = m.IsSubscribed b := by
  simp [MemoryStore.IsSubscribed, addTransaction_subscribed_set]

theorem addTransaction_not_subscribed {m : MemoryStore} {a : String} (tx : Transaction)
    (h : m.IsSubscribed a = false) : m.AddTransaction a tx = m := by
  have hmem : a ∉ m.subscribed := by
    simpa [MemoryStore.IsSubscribed] using h
  simp [MemoryStore.AddTransaction, hmem]

theorem getTransactions_addTransaction_self {m : MemoryStore} {a : String} (tx : Transaction)
    (h : m.IsSubscribed a = true) :
    (m.AddTransaction a tx).GetTransactions a = m.GetTransactions a ++ [tx] := by
  have hmem : a ∈ m.subscribed := by
    simpa [MemoryStore.IsSubscribed] using h
  rw [getTransactions_eq, getTransactions_eq]
  simp [MemoryStore.AddTransaction, hmem, lookupTxs_setTxs_self]

theorem lookupTxs_addTransaction_ne {m : MemoryStore} {a b : String} (tx : Transaction)
    (h : b ≠ a) :
    lookupTxs (m.AddTransaction a tx).transactions b = lookupTxs m.transactions b := by
  unfold MemoryStore.AddTransaction
  split
  · exact lookupTxs_setTxs_ne m.transactions _ h
  · rfl

/-! ### Lemmas about `storeTransactions` and the ingestion invariant -/

theorem storeTransactions_subscribed (txs : List Transaction) (m : MemoryStore) :
    (storeTransactions m txs).subscribed = m.subscribed := by
  induction txs generalizing m with
  | nil => rfl
  | cons tx rest ih =>
    rw [storeTransactions, ih]
    split <;> split <;> simp [addTransaction_subscribed_set]

theorem storeTransactions_currentBlock (txs : List Transaction) (m : MemoryStore) :
    (storeTransactions m txs).CurrentBlock = m.CurrentBlock := by
  induction txs generalizing m with
  | nil => rfl
  | cons tx rest ih =>
    rw [storeTransactions, ih]
    split <;> split <;> simp [addTransaction_currentBlock]

theorem txsWellFormed_addTransaction {m : MemoryStore} {a : String} {tx : Transaction}
    (ha : a = tx.From ∨ a = tx.To) (hm : txsWellFormed m) :
    txsWellFormed (m.AddTransaction a tx) := by
  intro B txs hB tx' htx'
  by_cases hBa : B = a
  · subst hBa
    unfold MemoryStore.AddTransaction at hB
    split at hB
    · rw [lookupTxs_setTxs_self] at hB
      obtain rfl : (lookupTxs m.transactions B).getD [] ++ [tx] = txs :=
        Option.some.inj hB
      rcases List.mem_append.mp htx' with hold | hnew
      · cases hl : lookupTxs m.transactions B with
        | none => rw [hl] at hold; simp at hold
        | some l =>
          rw [hl] at hold
          exact hm B l hl tx' hold
      · obtain rfl : tx' = tx := by simpa using hnew
        exact ha
    · exact hm B txs hB tx' htx'
  · rw [lookupTxs_addTransaction_ne tx hBa] at hB
    exact hm B txs hB tx' htx'

theorem txsWellFormed_storeTransactions {m : MemoryStore} (hm : txsWellFormed m)
    (txs : List Transaction) : txsWellFormed (storeTransactions m txs) := by
  induction txs generalizing m with
  | nil => exact hm
  | cons tx rest ih =>
    rw [storeTransactions]
    apply ih
    set m1 := if m.IsSubscribed tx.From = true then m.AddTransaction tx.From tx else m with hm1
    have h1 : txsWellFormed m1 := by
      rw [hm1]
      split
      · exact txsWellFormed_addTransaction (Or.inl rfl) hm
      · exact hm
    split
    · exact txsWellFormed_addTransaction (Or.inr rfl) h1
    · exact h1

theorem txsWellFormed_setCurrentBlock {m : MemoryStore} (hm : txsWellFormed m) (b : Int) :
    txsWellFormed (m.SetCurrentBlock b) := hm

/-! ### Characterization of `processNextBlock` by control-flow case -/

theorem processNextBlock_blockNumber_error {client : JSONRPCClient} {e : String}
    (m : MemoryStore) (hb : client.BlockNumber = Except.error e) :
    processNextBlock client m = (m, Except.error ("failed to get block number: " ++ e)) := by
  simp [processNextBlock, hb]

theorem processNextBlock_hex_error {client : JSONRPCClient} {s : String}
    (m : MemoryStore) (hb : client.BlockNumber = Except.ok s)
    (hx : hexToInt64 s = Except.error ()) :
    processNextBlock client m = (m, Except.error "failed converting block hex to int64") := by
  simp [processNextBlock, hb, hx]

theorem processNextBlock_at_tip {client : JSONRPCClient} {s : String} {tip : Int}
    (m : MemoryStore) (hb : client.BlockNumber = Except.ok s)
    (hx : hexToInt64 s = Except.ok tip) (hc : tip ≤ m.CurrentBlock) :
    processNextBlock client m = (m, Except.ok ()) := by
  simp [processNextBlock, hb, hx, MemoryStore.GetCurrentBlock, hc]

theorem processNextBlock_fetch_error {client : JSONRPCClient} {s : String} {tip : Int}
    {e : String} (m : MemoryStore) (hb : client.BlockNumber = Except.ok s)
    (hx : hexToInt64 s = Except.ok tip) (hc : m.CurrentBlock < tip)
    (hg : client.GetBlockByNumber (m.CurrentBlock + 1) = Except.error e) :
    processNextBlock client m = (m, Except.error ("failed to fetch block data: " ++ e)) := by
  simp [processNextBlock, hb, hx, MemoryStore.GetCurrentBlock, not_le.mpr hc, hg]

theorem processNextBlock_success {client : JSONRPCClient} {s : String} {tip : Int}
    {bd : BlockResponse} (m : MemoryStore) (hb : client.BlockNumber = Except.ok s)
    (hx : hexToInt64 s = Except.ok tip) (hc : m.CurrentBlock < tip)
    (hg : client.GetBlockByNumber (m.CurrentBlock + 1) = Except.ok bd) :
    processNextBlock client m =
      ((storeTransactions m (parseTransactions bd)).SetCurrentBlock (m.CurrentBlock + 1),
        Except.ok ()) := by
  simp [processNextBlock, hb, hx, MemoryStore.GetCurrentBlock, not_le.mpr hc, hg]

/-! ### Lemmas for subscription traces -/

theorem subscribed_applyOp (m : MemoryStore) (op : StoreOp) (a : String) :
    a ∈ (applyOp m op).subscribed ↔ a ∈ m.subscribed ∨ op = StoreOp.subscribe a := by
  cases op with
  | subscribe b =>
    unfold applyOp MemoryStore.Subscribe
    by_cases hb : b ∈ m.subscribed
    · simp only [if_pos hb, StoreOp.subscribe.injEq]
      constructor
      · exact Or.inl
      · rintro (h | rfl)
        · exact h
        · exact hb
    · simp only [if_neg hb, List.mem_cons, StoreOp.subscribe.injEq]
      constructor
      · rintro (rfl | h)
        · exact Or.inr rfl
        · exact Or.inl h
      · rintro (h | rfl)
        · exact Or.inr h
        · exact Or.inl rfl
  | addTransaction b tx => simp [applyOp, addTransaction_subscribed_set]
  | setCurrentBlock b => simp [applyOp, MemoryStore.SetCurrentBlock]

theorem subscribed_applyOps (ops : List StoreOp) (m : MemoryStore) (a : String) :
    a ∈ (applyOps m ops).subscribed ↔ a ∈ m.subscribed ∨ StoreOp.subscribe a ∈ ops := by
  induction ops generalizing m with
  | nil => simp [applyOps]
  | cons op rest ih =>
    rw [applyOps, ih, subscribed_applyOp]
    simp only [List.mem_cons]
    constructor
    · rintro ((h | h) | h)
      · exact Or.inl h
      · exact Or.inr (Or.inl h.symm)
      · exact Or.inr (Or.inr h)
    · rintro (h | (h | h))
      · exact Or.inl (Or.inl h)
      · exact Or.inl (Or.inr h.symm)
      · exact Or.inr h

/-! ### Lemmas for hex-prefix tolerance -/

theorem strip0x_cons (l : List Char) (h : l ≠ []) :
    strip0x ('0' :: 'x' :: l) = l := by
  have hlen : ('0' :: 'x' :: l).length > 2 := by
    have := List.length_pos.mpr h
    simp only [List.length_cons]
    omega
  unfold strip0x
  rw [if_pos ⟨hlen, rfl⟩]
  rfl

theorem strip0x_hexDigits (l : List Char) (h : ∀ c ∈ l, isHexDigitChar c = true) :
    strip0x l = l := by
  have hcond : ¬ (l.length > 2 ∧ l.take 2 = ['0', 'x']) := by
    rintro ⟨hlen, htake⟩
    cases l with
    | nil => simp at htake
    | cons c t =>
      cases t with
      | nil => simp at htake
      | cons c2 t2 =>
        have hc : c = '0' ∧ c2 = 'x' := by
          simpa [List.take] using htake
        obtain ⟨rfl, rfl⟩ := hc
        exact absurd (h 'x' (by simp)) (by decide)
  unfold strip0x
  rw [if_neg hcond]

theorem hexToInt64_leading0x (s : String) (h : ∀ c ∈ s.data, isHexDigitChar c = true) :
    hexToInt64 ("0x" ++ s) = hexToInt64 s := by
  have h0x : "0x".data = ['0', 'x'] := by decide
  have hdata : ("0x" ++ s).data = '0' :: 'x' :: s.data := by
    rw [String.data_append, h0x]
    rfl
  unfold hexToInt64
  rw [hdata]
  cases hs : s.data with
  | nil => rfl
  | cons c t =>
    rw [strip0x_cons (c :: t) (List.cons_ne_nil c t),
      strip0x_hexDigits (c :: t) (by intro c' hc'; apply h; rw [hs]; exact hc')]

/-! ### The claims -/

/-- C1: For every call to `processNextBlock` on a store with cursor `c`: on
an error return the store (hence the cursor) is unchanged; on success with
chain tip `h` and `c < h` the cursor becomes `c + 1`, and with `h ≤ c` the
store is unchanged; in every case the cursor never decreases and never
advances by more than one. -/
theorem claim_C1_cursor_step (client : JSONRPCClient) (m : MemoryStore) :
    (∀ e, (processNextBlock client m).2 = Except.error e → (processNextBlock client m).1 = m) ∧
    (∀ tip, chainTip client = some tip →
      (m.CurrentBlock < tip → (processNextBlock client m).2 = Except.ok () →
        (processNextBlock client m).1.CurrentBlock = m.CurrentBlock + 1) ∧
      (tip ≤ m.CurrentBlock → (processNextBlock client m).1 = m)) ∧
    m.CurrentBlock ≤ (processNextBlock client m).1.CurrentBlock ∧
    (processNextBlock client m).1.CurrentBlock ≤ m.CurrentBlock + 1 := by
  cases hb : client.BlockNumber with
  | error e =>
    rw [processNextBlock_blockNumber_error m hb]
    have htip : chainTip client = none := by simp [chainTip, hb]
    exact ⟨fun _ _ => rfl, fun tip h => Option.noConfusion (htip ▸ h), le_refl _,
      by change m.CurrentBlock ≤ m.CurrentBlock + 1; omega⟩
  | ok s =>
    cases hx : hexToInt64 s with
    | error u =>
      cases u
      rw [processNextBlock_hex_error m hb hx]
      have htip : chainTip client = none := by simp [chainTip, hb, hx, Except.toOption]
      exact ⟨fun _ _ => rfl, fun tip h => Option.noConfusion (htip ▸ h), le_refl _,
        by change m.CurrentBlock ≤ m.CurrentBlock + 1; omega⟩
    | ok tip =>
      have htip : chainTip client = some tip := by simp [chainTip, hb, hx, Except.toOption]
      rcases le_or_lt tip m.CurrentBlock with hc | hc
      · rw [processNextBlock_at_tip m hb hx hc]
        refine ⟨fun e he => Except.noConfusion he, fun tip' h' => ?_, le_refl _,
          by change m.CurrentBlock ≤ m.CurrentBlock + 1; omega⟩
        obtain rfl : tip = tip' := Option.some.inj (htip ▸ h')
        exact ⟨fun hlt => absurd hlt (not_lt.mpr hc), fun _ => rfl⟩
      · cases hg : client.GetBlockByNumber (m.CurrentBlock + 1) with
        | error e2 =>
          rw [processNextBlock_fetch_error m hb hx hc hg]
          refine ⟨fun _ _ => rfl, fun tip' h' => ?_, le_refl _,
            by change m.CurrentBlock ≤ m.CurrentBlock + 1; omega⟩
          obtain rfl : tip = tip' := Option.some.inj (htip ▸ h')
          exact ⟨fun _ h2 => Except.noConfusion h2, fun hle => absurd hle (not_le.mpr hc)⟩
        | ok bd =>
          rw [processNextBlock_success m hb hx hc hg]
          have hcb :
              ((storeTransactions m (parseTransactions bd)).SetCurrentBlock
                (m.CurrentBlock + 1)).CurrentBlock = m.CurrentBlock + 1 := rfl
          refine ⟨fun e he => Except.noConfusion he, fun tip' h' => ?_,
            by change m.CurrentBlock ≤ m.CurrentBlock + 1; omega,
            by change m.CurrentBlock + 1 ≤ m.CurrentBlock + 1; omega⟩
          obtain rfl : tip = tip' := Option.some.inj (htip ▸ h')
          exact ⟨fun _ _ => hcb, fun hle => absurd hle (not_le.mpr hc)⟩

/-- Witness for C1: against the test-fixture client (tip 3) a fresh store's
cursor advances from 0 to 1. -/
theorem claim_C1_cursor_step_witness :
    (processNextBlock mockClient NewMemoryStore).1.CurrentBlock =
      NewMemoryStore.CurrentBlock + 1 :=
  ((claim_C1_cursor_step mockClient NewMemoryStore).2.1 3 (by rfl)).1 (by decide) (by rfl)

/-- C2: From a fresh store, subscribing only to `"0x123"` and calling
`processNextBlock` three times against the fixture client (latest height 3;
block 1 carries tx1 `0xABCDEF→0x123` value `0x10` and tx2 `0x555→0x666`
value `0x20`; block 2 carries tx3 `0x123→0xABCDEF` value `0x15`; block 3 is
empty) leaves the cursor at 3 and `GetTransactions "0x123"` equal to exactly
`[tx1, tx3]` in that order. -/
theorem claim_C2_test_scenario :
    scenarioStore.GetCurrentBlock = 3 ∧
    scenarioStore.GetTransactions "0x123" =
      [ { Hash := "0xtx1", From := "0xABCDEF", To := "0x123", Value := "0x10", Block := 1 },
        { Hash := "0xtx3", From := "0x123", To := "0xABCDEF", Value := "0x15", Block := 2 } ] := by
  decide

/-- C3: Across every sequence of store operations on a fresh store, the
first `Subscribe A` (no earlier `subscribe A` in the trace) returns `true`
and installs an empty transaction list for `A`, and any later `Subscribe A`
returns `false`. -/
theorem claim_C3_subscribe_once (ops : List StoreOp) (A : String) :
    (StoreOp.subscribe A ∉ ops →
      ((applyOps NewMemoryStore ops).Subscribe A).1 = true ∧
      lookupTxs ((applyOps NewMemoryStore ops).Subscribe A).2.transactions A = some []) ∧
    (StoreOp.subscribe A ∈ ops → ((applyOps NewMemoryStore ops).Subscribe A).1 = false) := by
  have hmem : A ∈ (applyOps NewMemoryStore ops).subscribed ↔ StoreOp.subscribe A ∈ ops := by
    rw [subscribed_applyOps]
    simp [NewMemoryStore]
  constructor
  · intro hnot
    have hA : A ∉ (applyOps NewMemoryStore ops).subscribed := fun hin => hnot (hmem.mp hin)
    unfold MemoryStore.Subscribe
    rw [if_neg hA]
    exact ⟨rfl, lookupTxs_setTxs_self _ _ _⟩
  · intro hin
    have hA : A ∈ (applyOps NewMemoryStore ops).subscribed := hmem.mpr hin
    unfold MemoryStore.Subscribe
    rw [if_pos hA]

/-- Witness for C3: after a trace already containing `subscribe "0x123"`, a
further `Subscribe "0x123"` returns `false`. -/
theorem claim_C3_subscribe_once_witness :
    ((applyOps NewMemoryStore [StoreOp.subscribe "0x123"]).Subscribe "0x123").1 = false :=
  (claim_C3_subscribe_once [StoreOp.subscribe "0x123"] "0x123").2 (by decide)

/-- C4: `AddTransaction A tx` on a store where `A` is not subscribed leaves
the store completely unchanged; where `A` is subscribed it appends `tx` to
the end of `A`'s sequence and changes nothing else (cursor, subscription
set, and every other address's sequence are untouched). -/
theorem claim_C4_addTransaction_guard (m : MemoryStore) (A : String) (tx : Transaction) :
    (m.IsSubscribed A = false → m.AddTransaction A tx = m) ∧
    (m.IsSubscribed A = true →
      (m.AddTransaction A tx).GetTransactions A = m.GetTransactions A ++ [tx] ∧
      (m.AddTransaction A tx).CurrentBlock = m.CurrentBlock ∧
      (m.AddTransaction A tx).subscribed = m.subscribed ∧
      ∀ B, B ≠ A →
        lookupTxs (m.AddTransaction A tx).transactions B = lookupTxs m.transactions B) :=
  ⟨fun h => addTransaction_not_subscribed tx h,
    fun h =>
      ⟨getTransactions_addTransaction_self tx h, addTransaction_currentBlock m A tx,
        addTransaction_subscribed_set m A tx, fun _ hB => lookupTxs_addTransaction_ne tx hB⟩⟩

/-- Witness for C4: appending to the subscribed address `"0x123"` of a fresh
store extends its (empty) sequence by the one transaction. -/
theorem claim_C4_addTransaction_guard_witness :
    ((NewMemoryStore.Subscribe "0x123").2.AddTransaction "0x123" selfTx).GetTransactions
        "0x123" =
      (NewMemoryStore.Subscribe "0x123").2.GetTransactions "0x123" ++ [selfTx] :=
  ((claim_C4_addTransaction_guard (NewMemoryStore.Subscribe "0x123").2 "0x123" selfTx).2
    (by decide)).1

/-- C5: The ingestion path preserves the invariant that a transaction stored
under address `A` has `A` as its from- or to-address: both
`storeTransactions` and `processNextBlock` keep `txsWellFormed`. -/
theorem claim_C5_ingestion_invariant (m : MemoryStore) (hm : txsWellFormed m) :
    (∀ txs, txsWellFormed (storeTransactions m txs)) ∧
    (∀ client, txsWellFormed (processNextBlock client m).1) := by
  refine ⟨txsWellFormed_storeTransactions hm, fun client => ?_⟩
  cases hb : client.BlockNumber with
  | error e =>
    rw [processNextBlock_blockNumber_error m hb]
    exact hm
  | ok s =>
    cases hx : hexToInt64 s with
    | error u =>
      cases u
      rw [processNextBlock_hex_error m hb hx]
      exact hm
    | ok tip =>
      rcases le_or_lt tip m.CurrentBlock with hc | hc
      · rw [processNextBlock_at_tip m hb hx hc]
        exact hm
      · cases hg : client.GetBlockByNumber (m.CurrentBlock + 1) with
        | error e2 =>
          rw [processNextBlock_fetch_error m hb hx hc hg]
          exact hm
        | ok bd =>
          rw [processNextBlock_success m hb hx hc hg]
          exact txsWellFormed_setCurrentBlock (txsWellFormed_storeTransactions hm _) _

/-- Witness for C5: the empty store is well-formed and stays so after
ingesting a sample transaction list. -/
theorem claim_C5_ingestion_invariant_witness :
    txsWellFormed (storeTransactions NewMemoryStore [selfTx]) :=
  (claim_C5_ingestion_invariant NewMemoryStore
    (fun _ _ h => Option.noConfusion h)).1 [selfTx]

/-- C6: When `BlockNumber` fails, its result fails hex parsing, or the fetch
of block `c + 1` fails, `processNextBlock` returns an error and the store is
exactly the input store (no cursor advance, no sequence modified). -/
theorem claim_C6_error_leaves_store (client : JSONRPCClient) (m : MemoryStore)
    (h : (∃ e, client.BlockNumber = Except.error e) ∨
      (∃ s, client.BlockNumber = Except.ok s ∧ hexToInt64 s = Except.error ()) ∨
      (∃ s tip, client.BlockNumber = Except.ok s ∧ hexToInt64 s = Except.ok tip ∧
        m.CurrentBlock < tip ∧
        ∃ e, client.GetBlockByNumber (m.CurrentBlock + 1) = Except.error e)) :
    (processNextBlock client m).1 = m ∧
    ∃ e, (processNextBlock client m).2 = Except.error e := by
  rcases h with ⟨e, hb⟩ | ⟨s, hb, hx⟩ | ⟨s, tip, hb, hx, hc, e, hg⟩
  · rw [processNextBlock_blockNumber_error m hb]
    exact ⟨rfl, _, rfl⟩
  · rw [processNextBlock_hex_error m hb hx]
    exact ⟨rfl, _, rfl⟩
  · rw [processNextBlock_fetch_error m hb hx hc hg]
    exact ⟨rfl, _, rfl⟩

/-- Witness for C6: a client whose `BlockNumber` call fails leaves a fresh
store untouched and yields an error. -/
theorem claim_C6_error_leaves_store_witness :
    (processNextBlock failingClient NewMemoryStore).1 = NewMemoryStore ∧
    ∃ e, (processNextBlock failingClient NewMemoryStore).2 = Except.error e :=
  claim_C6_error_leaves_store failingClient NewMemoryStore
    (Or.inl ⟨"connection refused", rfl⟩)

/-- C7: `GetTransactions A` returns the empty sequence when `A` has no entry
and otherwise returns the stored sequence of `A` in insertion order; being a
pure read over a freshly rebuilt copy, it modifies nothing (the store value
is untouched and the returned list is rebuilt element by element by
`copySlice`). -/
theorem claim_C7_getTransactions_copy (m : MemoryStore) (A : String) :
    (lookupTxs m.transactions A = none → m.GetTransactions A = []) ∧
    (∀ txs, lookupTxs m.transactions A = some txs → m.GetTransactions A = txs) := by
  constructor
  · intro h
    simp [MemoryStore.GetTransactions, h]
  · intro txs h
    simp [MemoryStore.GetTransactions, h, copySlice_eq]

/-- Witness for C7: an unknown address on a fresh store yields the empty
list. -/
theorem claim_C7_getTransactions_copy_witness :
    NewMemoryStore.GetTransactions "0x999" = [] :=
  (claim_C7_getTransactions_copy NewMemoryStore "0x999").1 (by decide)

/-- C8: Hex parsing tolerates an absent `"0x"` prefix — for every string of
hex digits `s`, `hexToInt64 ("0x" ++ s)` and `hexToInt64 s` agree — and
every transaction produced by `parseTransactions` has `Block` equal to the
parse of the block's self-reported `Number` field, or `0` when that parse
fails, with the whole transaction list still decoded. -/
theorem claim_C8_hex_parsing :
    (∀ s : String, (∀ c ∈ s.data, isHexDigitChar c = true) →
      hexToInt64 ("0x" ++ s) = hexToInt64 s) ∧
    (∀ block : BlockResponse,
      (parseTransactions block).length = block.Result.Transactions.length ∧
      ∀ tx ∈ parseTransactions block,
        (∃ v, hexToInt64 block.Result.Number = Except.ok v ∧ tx.Block = v) ∨
        (hexToInt64 block.Result.Number = Except.error () ∧ tx.Block = 0)) := by
  constructor
  · exact hexToInt64_leading0x
  · intro block
    constructor
    · simp [parseTransactions]
    · intro tx htx
      simp only [parseTransactions, List.mem_map] at htx
      obtain ⟨raw, hraw, rfl⟩ := htx
      cases hx : hexToInt64 block.Result.Number with
      | ok v => exact Or.inl ⟨v, rfl, by simp [hexToInt64OrZero, hx]⟩
      | error u =>
        cases u
        exact Or.inr ⟨rfl, by simp [hexToInt64OrZero, hx]⟩

/-- Witness for C8: the digit string `"1a"` parses identically with and
without the `"0x"` prefix. -/
theorem claim_C8_hex_parsing_witness :
    hexToInt64 ("0x" ++ "1a") = hexToInt64 "1a" :=
  claim_C8_hex_parsing.1 "1a" (by decide)

/-- C9: `parseRunning` is a latch: after any `StartParsing` call it is
`true`; a call on an already-running parser changes nothing; and a second
call after a first one (including one whose loop has exited via context
cancellation) is always a no-op, so the parser can never be restarted. -/
theorem claim_C9_parseRunning_latch (p : EthParser) (client : JSONRPCClient)
    (signals : List Bool) :
    (StartParsing p client signals).parseRunning = true ∧
    (p.parseRunning = true → StartParsing p client signals = p) ∧
    (∀ client2 signals2,
      StartParsing (StartParsing p client signals) client2 signals2 =
        StartParsing p client signals) := by
  unfold StartParsing
  by_cases h : p.parseRunning
  · simp [h]
  · simp [h]

/-- Witness for C9: a parser whose loop is already running is returned
unchanged by `StartParsing`. -/
theorem claim_C9_parseRunning_latch_witness :
    StartParsing { store := NewMemoryStore, parseRunning := true } mockClient [] =
      { store := NewMemoryStore, parseRunning := true } :=
  (claim_C9_parseRunning_latch { store := NewMemoryStore, parseRunning := true }
    mockClient []).2.1 rfl

/-- C10: A self-transaction (`From = To = A`) on a subscribed address `A` is
appended twice by one ingestion step, so it appears duplicated in `A`'s
list. -/
theorem claim_C10_self_transaction_duplicated (m : MemoryStore) (tx : Transaction)
    (A : String) (hF : tx.From = A) (hT : tx.To = A) (hS : m.IsSubscribed A = true) :
    (storeTransactions m [tx]).GetTransactions A = m.GetTransactions A ++ [tx, tx] := by
  subst hT
  rw [storeTransactions, storeTransactions]
  simp only [hF, hS, isSubscribed_addTransaction, if_true]
  rw [getTransactions_addTransaction_self tx
      (by rw [isSubscribed_addTransaction]; exact hS),
    getTransactions_addTransaction_self tx hS, List.append_assoc]
  rfl

/-- Witness for C10: the self-transaction `selfTx` lands twice in the list
of its (subscribed) address on a fresh store. -/
theorem claim_C10_self_transaction_duplicated_witness :
    (storeTransactions (NewMemoryStore.Subscribe "0x123").2 [selfTx]).GetTransactions
        "0x123" =
      (NewMemoryStore.Subscribe "0x123").2.GetTransactions "0x123" ++ [selfTx, selfTx] :=
  claim_C10_self_transaction_duplicated (NewMemoryStore.Subscribe "0x123").2 selfTx
    "0x123" (by decide) (by decide) (by decide)

end TxParser
